import Mathlib

/-!
Verification development for the pairs-trading signal generator in
`src/pairs_trading_strategy.py`.

The statistical pipeline is shallowly embedded over exact rationals.
A pandas/numpy float series is modelled as `List (Option ℚ)`: `none` is the
NaN sentinel that pandas uses for missing or undefined entries, `some q` is a
finite value.  Elementwise series arithmetic propagates `none` exactly as
float arithmetic propagates NaN.  Division returns `none` on a zero
denominator: in exact arithmetic every zero denominator in this pipeline
comes paired with a zero numerator (see `sCov_right_const_zero` and
`sampleVar_eq_zero_imp_const` below), so the float result there is 0/0 = NaN.

The square root inside a sample standard deviation is irrational in general,
so it is modelled by an abstract function bundled in `NumModel`, assumed to
satisfy exactly the two properties of the real square root that the pipeline
results depend on: it is nonnegative on nonnegative inputs and vanishes
exactly at zero.  Likewise `ln2` stands for the constant `np.log(2)`; no
result depends on its exact value, only on its sign.  `qModel` is a concrete
instance used to evaluate the development on concrete inputs.
-/

namespace PairsTrading

/-- Abstract numeric model: a square-root function on ℚ together with the
properties of the real square root that the pipeline results depend on, and
a positive rational standing for the constant `np.log(2)`. -/
structure NumModel where
  sqrtFn : ℚ → ℚ
  sqrt_nonneg : ∀ q : ℚ, 0 ≤ q → 0 ≤ sqrtFn q
  sqrt_eq_zero : ∀ q : ℚ, 0 ≤ q → (sqrtFn q = 0 ↔ q = 0)
  ln2 : ℚ
  ln2_pos : 0 < ln2

/-- Concrete instance of `NumModel` used to evaluate the development at
concrete inputs.  The identity function satisfies both assumed properties of
the square root. -/
def qModel : NumModel where
  sqrtFn := id
  sqrt_nonneg := fun _ h => h
  sqrt_eq_zero := fun _ _ => Iff.rfl
  ln2 := 6931 / 10000
  ln2_pos := by norm_num

/-- Model of a pandas float Series: positional values, `none` for NaN. -/
abbrev Series := List (Option ℚ)

/-- NaN-propagating addition on series entries. -/
def oadd : Option ℚ → Option ℚ → Option ℚ
  | some a, some b => some (a + b)
  | _, _ => none

/-- NaN-propagating subtraction on series entries. -/
def osub : Option ℚ → Option ℚ → Option ℚ
  | some a, some b => some (a - b)
  | _, _ => none

/-- NaN-propagating multiplication on series entries. -/
def omul : Option ℚ → Option ℚ → Option ℚ
  | some a, some b => some (a * b)
  | _, _ => none

/-- NaN-propagating division on series entries.  A zero denominator yields
`none`: in this pipeline a zero denominator always occurs together with a
zero numerator (see `sCov_right_const_zero` and
`sampleVar_eq_zero_imp_const`), and 0.0/0.0 is NaN in float arithmetic. -/
def odiv : Option ℚ → Option ℚ → Option ℚ
  | some a, some b => if b = 0 then none else some (a / b)
  | _, _ => none

/-- Comparison `a < b` on series entries; any comparison with NaN is false,
exactly as in pandas. -/
def oLT : Option ℚ → Option ℚ → Bool
  | some a, some b => decide (a < b)
  | _, _ => false

/-- Comparison `a > b` on series entries; any comparison with NaN is false,
exactly as in pandas. -/
def oGT : Option ℚ → Option ℚ → Bool
  | some a, some b => decide (b < a)
  | _, _ => false

/-- Arithmetic mean of a list of rationals (sum divided by length). -/
def meanQ (l : List ℚ) : ℚ := l.sum / l.length

/-- Sample variance with divisor n − 1 (`ddof = 1`, the pandas and numpy
default for `std` and `cov`). -/
def sampleVarQ (l : List ℚ) : ℚ :=
  ((l.map (fun v => (v - meanQ l) ^ 2)).sum) / ((l.length : ℚ) - 1)

/-- Sample standard deviation: square root of `sampleVarQ`.  Undefined (NaN)
on fewer than two observations, where the divisor n − 1 vanishes. -/
def stdQ (m : NumModel) (l : List ℚ) : Option ℚ :=
  if l.length < 2 then none else some (m.sqrtFn (sampleVarQ l))

/-- Mean of a window, wrapped for use with `rollingStat`; total because a
rolling window that passes the `min_periods` check is nonempty. -/
def meanOpt (l : List ℚ) : Option ℚ := some (meanQ l)

/-- Trailing window of width `w` ending at position `i` inclusive. -/
def windowAt (s : Series) (w i : ℕ) : List (Option ℚ) :=
  (s.take (i + 1)).drop (i + 1 - w)

/-- Entry `i` of `s.rolling(w).agg f` under the pandas default
`min_periods = w`: defined only when the trailing window exists in full and
contains `w` non-NaN observations. -/
def rollingStat (f : List ℚ → Option ℚ) (s : Series) (w i : ℕ) : Option ℚ :=
  if w ≤ i + 1 ∧ i < s.length ∧ ((windowAt s w i).filterMap id).length = w
  then f ((windowAt s w i).filterMap id) else none

/-- Model of `s.rolling(w).mean()` (source line 58). -/
def rollingMeanS (s : Series) (w : ℕ) : Series :=
  (List.range s.length).map (fun i => rollingStat meanOpt s w i)

/-- Model of `s.rolling(w).std()` (source lines 39 and 59). -/
def rollingStdS (m : NumModel) (s : Series) (w : ℕ) : Series :=
  (List.range s.length).map (fun i => rollingStat (stdQ m) s w i)

/-- Sample covariance of two equal-length lists, divisor n − 1.  This is the
off-diagonal entry of `np.cov` (default `ddof = 1`). -/
def sCov (p q : List ℚ) : ℚ :=
  (((p.zip q).map (fun ab => (ab.1 - meanQ p) * (ab.2 - meanQ q))).sum) /
    ((p.length : ℚ) - 1)

/-- Entry of the `np.cov(y, x)` matrix as used on source line 47: defined
when the inputs have the same length of at least two and contain no NaN
(`np.cov` does not drop NaN; any NaN input makes the entry NaN, and a single
observation gives a 0/0 entry). -/
def covEntry (y x : Series) : Option ℚ :=
  if y.length = x.length ∧ 2 ≤ y.length ∧ (y.filterMap id).length = y.length ∧
      (x.filterMap id).length = x.length
  then some (sCov (y.filterMap id) (x.filterMap id)) else none

/-- Model of `calculate_hedge_ratio` (source lines 45 to 49):
`np.cov(y, x)[0, 1] / np.cov(y, x)[1, 1]`.  When `Var(X) = 0` the entries
give 0/0, hence NaN (`none`); see `sCov_right_const_zero`. -/
def hedgeRatioQ (y x : Series) : Option ℚ :=
  odiv (covEntry y x) (covEntry x x)

/-- Model of `calculate_spread` (source lines 52 to 54): `y - hedge_ratio * x`
elementwise, where the scalar hedge ratio may itself be NaN. -/
def calculate_spread (y x : Series) (hr : Option ℚ) : Series :=
  List.zipWith (fun a b => osub a (omul hr b)) y x

/-- Model of `calculate_zscore` (source lines 56 to 61):
`(spread - spread.rolling(w).mean()) / spread.rolling(w).std()`. -/
def calculate_zscore (m : NumModel) (s : Series) (w : ℕ) : Series :=
  List.zipWith odiv (List.zipWith osub s (rollingMeanS s w)) (rollingStdS m s w)

/-- Model of `adaptive_thresholds` (source lines 37 to 42): the pair
`(rolling_std * 2, -rolling_std * 2)` of upper and lower threshold series. -/
def adaptive_thresholds (m : NumModel) (s : Series) (w : ℕ) : Series × Series :=
  let rs := rollingStdS m s w
  (rs.map (fun o => o.map (fun v => v * 2)),
   rs.map (fun o => o.map (fun v => (-v) * 2)))

/-- Model of `spread.shift(1)`: every value moves one position later, the
first entry becomes NaN, the last value drops off. -/
def shiftOne (s : Series) : Series := none :: s.dropLast

/-- Model of `spread.diff()`: first entry NaN, then elementwise differences
of consecutive entries with NaN propagation. -/
def diffS (s : Series) : Series := none :: List.zipWith osub (s.drop 1) s

/-- Slope returned by `np.polyfit(x, y, 1)[0]`: the least-squares slope
`Sxy / Sxx`.  `none` models the cases where `polyfit` raises or the normal
equations are singular: fewer than two points, mismatched lengths, or a
degenerate (constant) regressor. -/
def polyfitSlope (x y : List ℚ) : Option ℚ :=
  if 2 ≤ x.length ∧ x.length = y.length ∧
      (x.map (fun v => (v - meanQ x) ^ 2)).sum ≠ 0
  then some (((x.zip y).map (fun ab => (ab.1 - meanQ x) * (ab.2 - meanQ y))).sum /
    (x.map (fun v => (v - meanQ x) ^ 2)).sum)
  else none

/-- Model of `calculate_half_life` (source lines 29 to 35): regress the
differenced spread on the lagged spread (both with NaN dropped) and return
`max(1, -log(2) / beta)`.  For `beta = 0` the float code produces
`max(1, -inf) = 1`; the rational convention `-ln2 / 0 = 0` gives
`max 1 0 = 1`, the same result.  `none` models an exception escaping from
`np.polyfit`. -/
def calculate_half_life (m : NumModel) (s : Series) : Option ℚ :=
  let lag := (shiftOne s).filterMap id
  let ds := (diffS s).filterMap id
  (polyfitSlope lag ds).map (fun beta => max 1 (-m.ln2 / beta))

/-- Indices selected by `zscore[zscore < lower_threshold]` (source line 131).
Signals are modelled by their index sets; a NaN on either side of the
comparison excludes the index. -/
def buySignals (zs lo : Series) : List ℕ :=
  (List.range zs.length).filter (fun i => oLT (zs.getD i none) (lo.getD i none))

/-- Indices selected by `zscore[zscore > upper_threshold]` (source line 132). -/
def sellSignals (zs up : Series) : List ℕ :=
  (List.range zs.length).filter (fun i => oGT (zs.getD i none) (up.getD i none))

/-- Sample covariance exactly as §4.1 of the spec words it: the sum of
products of deviations from the means, divided by n − 1.  Written from the
spec for comparison with the `np.cov`-based code path. -/
def specSampleCov (p q : List ℚ) : ℚ :=
  ((List.zipWith (fun a b => (a - meanQ p) * (b - meanQ q)) p q).sum) /
    ((p.length : ℚ) - 1)

/-- Outcome of a run of `main` after the two data fetches (source lines 111
to 135).  `noData` is the early return printing the message on line 112;
`crashed` is an unhandled library exception aborting the process; `plotted`
carries the z-score, spread and signal index sets handed to the plot. -/
inductive MainResult where
  | noData : MainResult
  | crashed : MainResult
  | plotted : Series → Series → List ℕ → List ℕ → MainResult
deriving DecidableEq

/-- Model of `pd.concat([y, x], axis=1).dropna()` (source line 116) for
keyed series with unique keys: the inner join on the shared keys, in the
order of the first series. -/
def alignSeries (y x : List (ℕ × ℚ)) : List (ℚ × ℚ) :=
  y.filterMap (fun p => (List.lookup p.1 x).map (fun w => (p.2, w)))

/-- Model of `main` (source lines 111 to 135) from the point where both
symbols have been fetched: the empty-data guard, alignment, hedge ratio,
spread, half-life, z-score with window `int(half_life)`, thresholds with
window 60, and signal extraction. -/
def mainAfterFetch (m : NumModel) (ydata xdata : List (ℕ × ℚ)) : MainResult :=
  if ydata.isEmpty || xdata.isEmpty then .noData
  else
    let combined := alignSeries ydata xdata
    let ys : Series := combined.map (fun p => some p.1)
    let xs : Series := combined.map (fun p => some p.2)
    let hr := hedgeRatioQ ys xs
    let spread := calculate_spread ys xs hr
    match calculate_half_life m spread with
    | none => .crashed
    | some hl =>
      let w := hl.floor.toNat
      let zs := calculate_zscore m spread w
      let thr := adaptive_thresholds m spread 60
      .plotted zs spread (buySignals zs thr.2) (sellSignals zs thr.1)

/-! Helper lemmas about the series primitives. -/

/-- Division of a series entry by NaN is NaN. -/
theorem odiv_none_right (a : Option ℚ) : odiv a none = none := by
  cases a <;> rfl

/-- Division of a series entry by an exact zero is NaN. -/
theorem odiv_zero_right (a : Option ℚ) : odiv a (some 0) = none := by
  cases a <;> simp [odiv]

/-- Comparisons whose left operand is NaN are false. -/
theorem oLT_none_left (b : Option ℚ) : oLT none b = false := by
  cases b <;> rfl

/-- Comparisons whose left operand is NaN are false. -/
theorem oGT_none_left (b : Option ℚ) : oGT none b = false := by
  cases b <;> rfl

/-- Inversion for a true less-than comparison of series entries. -/
theorem oLT_eq_true (a b : Option ℚ) (h : oLT a b = true) :
    ∃ x y, a = some x ∧ b = some y ∧ x < y := by
  rcases a with _ | x <;> rcases b with _ | y <;>
    simp [oLT, decide_eq_true_eq] at h
  exact ⟨x, y, rfl, rfl, h⟩

/-- Inversion for a true greater-than comparison of series entries. -/
theorem oGT_eq_true (a b : Option ℚ) (h : oGT a b = true) :
    ∃ x y, a = some x ∧ b = some y ∧ y < x := by
  rcases a with _ | x <;> rcases b with _ | y <;>
    simp [oGT, decide_eq_true_eq] at h
  exact ⟨x, y, rfl, rfl, h⟩

/-- Positional access commutes with elementwise binary series operations, for
equal-length series and operations that send a pair of NaNs to NaN. -/
theorem getD_zipWith (f : Option ℚ → Option ℚ → Option ℚ)
    (hf : f none none = none) :
    ∀ (a b : Series) (i : ℕ), a.length = b.length →
      (List.zipWith f a b).getD i none = f (a.getD i none) (b.getD i none) := by
  intro a
  induction a with
  | nil =>
    intro b i h
    cases b with
    | nil => simp [hf]
    | cons y ys => simp at h
  | cons x xs ih =>
    intro b i h
    cases b with
    | nil => simp at h
    | cons y ys =>
      cases i with
      | zero => simp
      | succ j =>
        simp only [List.zipWith_cons_cons, List.getD_cons_succ]
        exact ih ys j (by simpa using h)

/-- Positional access commutes with mapping a NaN-preserving function over a
series. -/
theorem getD_map_opt (f : Option ℚ → Option ℚ) (hf : f none = none)
    (l : Series) (i : ℕ) : (l.map f).getD i none = f (l.getD i none) := by
  induction l generalizing i with
  | nil => simp [hf]
  | cons x xs ih =>
    cases i with
    | zero => simp
    | succ j => simpa using ih j

/-- Positional access into a map over `List.range`. -/
theorem getD_range_map (g : ℕ → Option ℚ) (n i : ℕ) :
    ((List.range n).map g).getD i none = if i < n then g i else none := by
  rw [List.getD_eq_getD_get?, List.get?_eq_getElem?, List.getElem?_map]
  by_cases h : i < n
  · rw [List.getElem?_range h, if_pos h]
    rfl
  · rw [List.getElem?_eq_none (by simpa using Nat.le_of_not_lt h), if_neg h]
    rfl

/-- Positional access into the embedding of a NaN-free list as a series. -/
theorem getD_map_some (l : List ℚ) (i : ℕ) (hi : i < l.length) :
    (l.map some).getD i none = some (l.getD i 0) := by
  induction l generalizing i with
  | nil => simp at hi
  | cons a t ih =>
    cases i with
    | zero => simp
    | succ j => simpa using ih j (by simpa using hi)

/-- Length of a rolling-mean series. -/
theorem length_rollingMeanS (s : Series) (w : ℕ) :
    (rollingMeanS s w).length = s.length := by
  simp [rollingMeanS]

/-- Length of a rolling-std series. -/
theorem length_rollingStdS (m : NumModel) (s : Series) (w : ℕ) :
    (rollingStdS m s w).length = s.length := by
  simp [rollingStdS]

/-- Entry `i` of the rolling-std series, as a rolling statistic. -/
theorem rollingStdS_getD (m : NumModel) (s : Series) (w i : ℕ) :
    (rollingStdS m s w).getD i none =
      if i < s.length then rollingStat (stdQ m) s w i else none := by
  unfold rollingStdS
  exact getD_range_map _ _ _

/-- Entry `i` of the rolling-mean series, as a rolling statistic. -/
theorem rollingMeanS_getD (s : Series) (w i : ℕ) :
    (rollingMeanS s w).getD i none =
      if i < s.length then rollingStat meanOpt s w i else none := by
  unfold rollingMeanS
  exact getD_range_map _ _ _

/-- Entry `i` of the z-score series is the NaN-aware quotient of the centred
spread entry by the rolling standard deviation entry. -/
theorem zscore_getD (m : NumModel) (s : Series) (w i : ℕ) :
    (calculate_zscore m s w).getD i none =
      odiv (osub (s.getD i none) ((rollingMeanS s w).getD i none))
        ((rollingStdS m s w).getD i none) := by
  unfold calculate_zscore
  rw [getD_zipWith odiv rfl _ _ i
      (by simp [length_rollingStdS, length_rollingMeanS]),
    getD_zipWith osub rfl _ _ i (length_rollingMeanS s w).symm]

/-- First component of the adaptive thresholds: the upper band. -/
theorem adaptive_fst (m : NumModel) (s : Series) (w : ℕ) :
    (adaptive_thresholds m s w).1 =
      (rollingStdS m s w).map (fun o => o.map (fun v => v * 2)) := rfl

/-- Second component of the adaptive thresholds: the lower band. -/
theorem adaptive_snd (m : NumModel) (s : Series) (w : ℕ) :
    (adaptive_thresholds m s w).2 =
      (rollingStdS m s w).map (fun o => o.map (fun v => (-v) * 2)) := rfl

/-! Helper lemmas about the sample statistics. -/

/-- Sample variance is nonnegative on at least two observations. -/
theorem sampleVar_nonneg (l : List ℚ) (h : 2 ≤ l.length) : 0 ≤ sampleVarQ l := by
  unfold sampleVarQ
  apply div_nonneg
  · apply List.sum_nonneg
    intro x hx
    obtain ⟨v, _, rfl⟩ := List.mem_map.mp hx
    positivity
  · have h2 : (2 : ℚ) ≤ (l.length : ℚ) := by exact_mod_cast h
    linarith

/-- Sum of a list of nonnegative rationals vanishes only if every element
vanishes. -/
theorem sum_of_nonneg_eq_zero (l : List ℚ) (hn : ∀ x ∈ l, 0 ≤ x)
    (hs : l.sum = 0) : ∀ x ∈ l, x = 0 := by
  induction l with
  | nil => simp
  | cons a t ih =>
    have ha : 0 ≤ a := hn a (by simp)
    have ht : 0 ≤ t.sum := List.sum_nonneg fun x hx => hn x (by simp [hx])
    have hsum : a + t.sum = 0 := by simpa using hs
    intro x hx
    rcases List.mem_cons.mp hx with rfl | hx
    · linarith
    · exact ih (fun y hy => hn y (by simp [hy])) (by linarith) x hx

/-- Zero sample variance forces every observation to equal the mean.  This is
the fact that makes the NaN convention of `odiv` faithful for the z-score: a
zero rolling standard deviation makes the centred numerator zero as well, so
the float division is 0/0 = NaN. -/
theorem sampleVar_eq_zero_imp_const (l : List ℚ) (h2 : 2 ≤ l.length)
    (h : sampleVarQ l = 0) : ∀ v ∈ l, v = meanQ l := by
  unfold sampleVarQ at h
  have hden : ((l.length : ℚ) - 1) ≠ 0 := by
    have hc : (2 : ℚ) ≤ (l.length : ℚ) := by exact_mod_cast h2
    intro h0
    rw [sub_eq_zero] at h0
    rw [h0] at hc
    norm_num at hc
  have hsum : (l.map (fun v => (v - meanQ l) ^ 2)).sum = 0 := by
    rcases div_eq_zero_iff.mp h with h0 | h0
    · exact h0
    · exact absurd h0 hden
  intro v hv
  have hz := sum_of_nonneg_eq_zero _
    (fun x hx => by obtain ⟨u, _, rfl⟩ := List.mem_map.mp hx; positivity) hsum
    ((v - meanQ l) ^ 2) (List.mem_map.mpr ⟨v, hv, rfl⟩)
  have := pow_eq_zero_iff (two_ne_zero) |>.mp hz
  have := sub_eq_zero.mp this
  exact this

/-- When the second series is constant (zero sample variance), the sample
covariance against it vanishes.  This is the fact that makes the NaN
convention of `odiv` faithful for the hedge ratio: with `Var(X) = 0` the
`np.cov` entries give the float division 0/0 = NaN. -/
theorem sCov_right_const_zero (p q : List ℚ) (h2 : 2 ≤ q.length)
    (hv : sampleVarQ q = 0) : sCov p q = 0 := by
  unfold sCov
  have hz : ((p.zip q).map
      (fun ab => (ab.1 - meanQ p) * (ab.2 - meanQ q))).sum = 0 := by
    apply List.sum_eq_zero
    intro x hx
    obtain ⟨⟨a, b⟩, hab, rfl⟩ := List.mem_map.mp hx
    have hb := (List.of_mem_zip hab).2
    rw [sampleVar_eq_zero_imp_const q h2 hv b hb, sub_self, mul_zero]
  rw [hz, zero_div]

/-- A defined rolling standard deviation is nonnegative. -/
theorem rollingStd_getD_some (m : NumModel) (s : Series) (w i : ℕ) (sd : ℚ)
    (h : (rollingStdS m s w).getD i none = some sd) : 0 ≤ sd := by
  rw [rollingStdS_getD] at h
  by_cases hi : i < s.length
  · rw [if_pos hi] at h
    unfold rollingStat at h
    by_cases hc : w ≤ i + 1 ∧ i < s.length ∧
        ((windowAt s w i).filterMap id).length = w
    · rw [if_pos hc] at h
      unfold stdQ at h
      by_cases hlt : ((windowAt s w i).filterMap id).length < 2
      · rw [if_pos hlt] at h
        exact absurd h (by simp)
      · rw [if_neg hlt] at h
        rw [← Option.some_inj.mp h]
        exact m.sqrt_nonneg _ (sampleVar_nonneg _ (by omega))
    · rw [if_neg hc] at h
      exact absurd h (by simp)
  · rw [if_neg hi] at h
    exact absurd h (by simp)

/-! Helper lemmas about constant series. -/

/-- Extracting the defined values of a constant defined series. -/
theorem filterMap_id_replicate_some (k : ℕ) (c : ℚ) :
    (List.replicate k (some c)).filterMap id = List.replicate k c := by
  induction k with
  | zero => rfl
  | succ j ih => simp [List.replicate_succ, List.filterMap_cons, ih]

/-- Trailing windows of a constant series are constant. -/
theorem windowAt_replicate (n w i : ℕ) (c : ℚ) :
    windowAt (List.replicate n (some c)) w i =
      List.replicate (min (i + 1) n - (i + 1 - w)) (some c) := by
  unfold windowAt
  rw [List.take_replicate, List.drop_replicate]

/-- Mean of a constant list. -/
theorem meanQ_replicate (k : ℕ) (c : ℚ) (hk : k ≠ 0) :
    meanQ (List.replicate k c) = c := by
  unfold meanQ
  rw [List.sum_replicate, List.length_replicate, nsmul_eq_mul]
  have hq : (k : ℚ) ≠ 0 := Nat.cast_ne_zero.mpr hk
  field_simp

/-- Sample variance of a constant list vanishes. -/
theorem sampleVar_replicate (k : ℕ) (c : ℚ) :
    sampleVarQ (List.replicate k c) = 0 := by
  cases k with
  | zero => simp [sampleVarQ, meanQ]
  | succ j =>
    unfold sampleVarQ
    rw [meanQ_replicate _ _ (Nat.succ_ne_zero j), List.map_replicate]
    simp

/-- With a full window of width at least 2 inside a constant series, the
rolling standard deviation is exactly zero. -/
theorem rollingStdS_replicate_full (m : NumModel) (w n i : ℕ) (c : ℚ)
    (h2 : 2 ≤ w) (hw : w ≤ i + 1) (hi : i < n) :
    (rollingStdS m (List.replicate n (some c)) w).getD i none = some 0 := by
  rw [rollingStdS_getD, if_pos (by simpa using hi)]
  unfold rollingStat
  rw [windowAt_replicate, filterMap_id_replicate_some]
  have hk : min (i + 1) n - (i + 1 - w) = w := by omega
  rw [hk, if_pos ⟨hw, by simpa using hi, by simp⟩]
  unfold stdQ
  rw [if_neg (by simp only [List.length_replicate]; omega), sampleVar_replicate,
    (m.sqrt_eq_zero 0 le_rfl).mpr rfl]

/-- Every entry of the rolling standard deviation of a constant series is
either NaN (insufficient window) or exactly zero. -/
theorem rollingStdS_replicate (m : NumModel) (w n i : ℕ) (c : ℚ) :
    (rollingStdS m (List.replicate n (some c)) w).getD i none = none ∨
    (rollingStdS m (List.replicate n (some c)) w).getD i none = some 0 := by
  rw [rollingStdS_getD]
  by_cases hi : i < (List.replicate n (some c) : Series).length
  · rw [if_pos hi]
    unfold rollingStat
    by_cases hc : w ≤ i + 1 ∧ i < (List.replicate n (some c) : Series).length ∧
        ((windowAt (List.replicate n (some c)) w i).filterMap id).length = w
    · rw [if_pos hc]
      unfold stdQ
      by_cases hlt :
          ((windowAt (List.replicate n (some c)) w i).filterMap id).length < 2
      · rw [if_pos hlt]
        exact Or.inl rfl
      · rw [if_neg hlt]
        refine Or.inr ?_
        have hv : sampleVarQ
            ((windowAt (List.replicate n (some c)) w i).filterMap id) = 0 := by
          rw [windowAt_replicate, filterMap_id_replicate_some, sampleVar_replicate]
        rw [hv, (m.sqrt_eq_zero 0 le_rfl).mpr rfl]
    · rw [if_neg hc]
      exact Or.inl rfl
  · rw [if_neg hi]
    exact Or.inl rfl

/-- Every entry of the z-score of a constant series is NaN. -/
theorem zscore_const_none (m : NumModel) (w n : ℕ) (c : ℚ) (i : ℕ) :
    (calculate_zscore m (List.replicate n (some c)) w).getD i none = none := by
  rw [zscore_getD]
  rcases rollingStdS_replicate m w n i c with h | h <;> rw [h]
  · exact odiv_none_right _
  · exact odiv_zero_right _

/-! Helper lemmas for the hedge-ratio computation on NaN-free inputs. -/

/-- Embedding a NaN-free list as a series and extracting the defined values
is the identity. -/
theorem filterMap_id_map_some (l : List ℚ) : (l.map some).filterMap id = l := by
  rw [List.filterMap_map]
  exact List.filterMap_some l

/-- Evaluation of a covariance-matrix entry on NaN-free inputs of equal
length. -/
theorem covEntry_map_some (p q : List ℚ) (h : p.length = q.length) :
    covEntry (p.map some) (q.map some) =
      if 2 ≤ p.length then some (sCov p q) else none := by
  unfold covEntry
  simp only [List.length_map, filterMap_id_map_some]
  by_cases h2 : 2 ≤ p.length
  · rw [if_pos ⟨h, h2, trivial, trivial⟩, if_pos h2]
  · rw [if_neg fun hc => h2 hc.2.1, if_neg h2]

/-- The `np.cov`-style sample covariance agrees with the formula as the spec
words it. -/
theorem sCov_eq_spec (p q : List ℚ) : sCov p q = specSampleCov p q := by
  unfold sCov specSampleCov
  congr 1
  rw [show p.zip q = List.zipWith Prod.mk p q from rfl, List.map_zipWith]

/-- Sum of a list shifted by a constant. -/
theorem sum_map_add (y : List ℚ) (c : ℚ) :
    (y.map (fun v => v + c)).sum = y.sum + y.length * c := by
  induction y with
  | nil => simp
  | cons a t ih =>
    simp only [List.map_cons, List.sum_cons, ih, List.length_cons]
    push_cast
    ring

/-- Mean of a list shifted by a constant. -/
theorem meanQ_map_add (y : List ℚ) (c : ℚ) (hy : y ≠ []) :
    meanQ (y.map (fun v => v + c)) = meanQ y + c := by
  unfold meanQ
  rw [sum_map_add y c, List.length_map]
  have hn : (y.length : ℚ) ≠ 0 :=
    Nat.cast_ne_zero.mpr fun h0 => hy (List.length_eq_zero.mp h0)
  field_simp
  ring

/-- Sample covariance is invariant under shifting the first list by a
constant. -/
theorem sCov_map_add_left (y x : List ℚ) (c : ℚ) (hy : y ≠ []) :
    sCov (y.map (fun v => v + c)) x = sCov y x := by
  unfold sCov
  rw [meanQ_map_add y c hy, List.length_map, List.zip_map_left, List.map_map]
  congr 1
  refine congrArg List.sum (List.map_congr_left ?_)
  intro ab _
  obtain ⟨a, b⟩ := ab
  simp only [Function.comp_apply, Prod.map_apply, id_eq]
  ring

/-! Claim theorems. -/

/-- Claim C1: the claim states that with a constant X series the hedge-ratio
computation fails or returns undefined and the pipeline aborts rather than
continuing.  On the code this fails: at the failing input below the hedge
ratio is indeed undefined (NaN), but `main` performs no check — it continues
and computes the spread with the NaN hedge ratio (an all-NaN series), and the
run then dies inside `np.polyfit` with an unhandled exception instead of a
clean `DegenerateInput` abort.  This theorem evaluates the embedded pipeline
at that input. -/
theorem hedge_ratio_constant_x_pipeline_continues :
    mainAfterFetch qModel [(0, 1), (1, 2), (2, 3), (3, 4)]
        [(0, 5), (1, 5), (2, 5), (3, 5)] = MainResult.crashed ∧
    hedgeRatioQ [some 1, some 2, some 3, some 4]
        [some 5, some 5, some 5, some 5] = none ∧
    calculate_spread [some 1, some 2, some 3, some 4]
        [some 5, some 5, some 5, some 5]
        (hedgeRatioQ [some 1, some 2, some 3, some 4]
          [some 5, some 5, some 5, some 5]) =
      [none, none, none, none] := by
  have hcovx : covEntry [some (5 : ℚ), some 5, some 5, some 5]
      [some (5 : ℚ), some 5, some 5, some 5] = some 0 := by
    simp [covEntry, sCov, meanQ]
    norm_num
  have hhr : hedgeRatioQ [some (1 : ℚ), some 2, some 3, some 4]
      [some (5 : ℚ), some 5, some 5, some 5] = none := by
    unfold hedgeRatioQ
    rw [hcovx, odiv_zero_right]
  refine ⟨?_, hhr, by rw [hhr]; rfl⟩
  have halign : alignSeries [(0, (1 : ℚ)), (1, 2), (2, 3), (3, 4)]
      [(0, (5 : ℚ)), (1, 5), (2, 5), (3, 5)] =
      [(1, 5), (2, 5), (3, 5), (4, 5)] := rfl
  unfold mainAfterFetch
  rw [halign]
  simp [hedgeRatioQ, hcovx, odiv_zero_right, calculate_spread, osub, omul,
    calculate_half_life, shiftOne, diffS, polyfitSlope]

/-- Claim C2: an empty fetch result for either symbol makes the run abort
with the printed message (the `noData` outcome), before any statistic is
computed and without reaching any code that could fault. -/
theorem empty_feed_aborts_before_statistics (m : NumModel)
    (ydata xdata : List (ℕ × ℚ)) (h : ydata = [] ∨ xdata = []) :
    mainAfterFetch m ydata xdata = MainResult.noData := by
  rcases h with rfl | rfl
  · simp [mainAfterFetch]
  · simp [mainAfterFetch]

/-- Witness for claim C2 at a concrete input. -/
theorem empty_feed_aborts_before_statistics_witness :
    mainAfterFetch qModel [] [(0, 5)] = MainResult.noData :=
  empty_feed_aborts_before_statistics qModel [] [(0, 5)] (Or.inl rfl)

/-- Claim C3: for a window of at least 1, the z-score entries with
insufficient history (the first window − 1 positions) are undefined, and at
any position with full history, a defined spread entry and a defined nonzero
rolling standard deviation, the z-score is defined and equals
(spread − rollingMean) / rollingStd. -/
theorem zscore_leading_undefined_and_formula (m : NumModel) (s : Series)
    (w i : ℕ) (v mu sd : ℚ) (_hw : 1 ≤ w) :
    (i + 1 < w → (calculate_zscore m s w).getD i none = none) ∧
    (w ≤ i + 1 → s.getD i none = some v →
      (rollingMeanS s w).getD i none = some mu →
      (rollingStdS m s w).getD i none = some sd → sd ≠ 0 →
      (calculate_zscore m s w).getD i none = some ((v - mu) / sd)) := by
  constructor
  · intro hlt
    have hstd : (rollingStdS m s w).getD i none = none := by
      rw [rollingStdS_getD]
      by_cases hi : i < s.length
      · rw [if_pos hi]
        unfold rollingStat
        rw [if_neg fun hc => absurd hc.1 (by omega)]
      · rw [if_neg hi]
    rw [zscore_getD, hstd, odiv_none_right]
  · intro _ hv hm hsd hne
    rw [zscore_getD, hv, hm, hsd]
    simp [osub, odiv, hne]

/-- Witness for claim C3 at a concrete input: spread [1, 3], window 2,
position 1 has rolling mean 2 and rolling standard deviation 2, and the
z-score is (3 − 2) / 2. -/
theorem zscore_leading_undefined_and_formula_witness :
    (calculate_zscore qModel [some 1, some 3] 2).getD 1 none =
      some ((3 - 2) / 2) :=
  (zscore_leading_undefined_and_formula qModel [some 1, some 3] 2 1 3 2 2
      (by decide)).2
    (by decide) rfl
    (by rw [rollingMeanS_getD]
        simp [rollingStat, windowAt, meanOpt, meanQ]
        norm_num)
    (by rw [rollingStdS_getD]
        simp [rollingStat, windowAt, stdQ, sampleVarQ, meanQ, qModel]
        norm_num)
    (by norm_num)

/-- Claim C4: where the rolling standard deviation is exactly zero the
z-score entry is the NaN sentinel (never zero or an infinity), and that index
is in neither signal set; moreover an all-equal spread series produces no buy
or sell signals at any index. -/
theorem zero_std_zscore_undefined_no_signals (m : NumModel) (s : Series)
    (w i n : ℕ) (c : ℚ)
    (hstd : (rollingStdS m s w).getD i none = some 0) :
    (calculate_zscore m s w).getD i none = none ∧
    i ∉ buySignals (calculate_zscore m s w) (adaptive_thresholds m s 60).2 ∧
    i ∉ sellSignals (calculate_zscore m s w) (adaptive_thresholds m s 60).1 ∧
    buySignals (calculate_zscore m (List.replicate n (some c)) w)
      (adaptive_thresholds m (List.replicate n (some c)) 60).2 = [] ∧
    sellSignals (calculate_zscore m (List.replicate n (some c)) w)
      (adaptive_thresholds m (List.replicate n (some c)) 60).1 = [] := by
  have hz : (calculate_zscore m s w).getD i none = none := by
    rw [zscore_getD, hstd, odiv_zero_right]
  refine ⟨hz, ?_, ?_, ?_, ?_⟩
  · intro hmem
    unfold buySignals at hmem
    have hp := (List.mem_filter.mp hmem).2
    rw [hz, oLT_none_left] at hp
    exact absurd hp (by simp)
  · intro hmem
    unfold sellSignals at hmem
    have hp := (List.mem_filter.mp hmem).2
    rw [hz, oGT_none_left] at hp
    exact absurd hp (by simp)
  · unfold buySignals
    refine List.filter_eq_nil_iff.mpr ?_
    intro a _
    simp only [zscore_const_none, oLT_none_left]
    exact Bool.false_ne_true
  · unfold sellSignals
    refine List.filter_eq_nil_iff.mpr ?_
    intro a _
    simp only [zscore_const_none, oGT_none_left]
    exact Bool.false_ne_true

/-- Witness for claim C4 at a concrete input: spread [5, 5] with window 2 has
rolling standard deviation zero at position 1 and an undefined z-score
there. -/
theorem zero_std_zscore_undefined_no_signals_witness :
    (calculate_zscore qModel [some 5, some 5] 2).getD 1 none = none :=
  (zero_std_zscore_undefined_no_signals qModel [some 5, some 5] 2 1 3 7
      (by rw [rollingStdS_getD]
          simp [rollingStat, windowAt, stdQ, sampleVarQ, meanQ, qModel])).1

/-- Claim C5: whenever the half-life computation is defined its value is at
least 1, and hence the z-score window `int(half_life)` is an integer at
least 1. -/
theorem half_life_at_least_one (m : NumModel) (s : Series) (hl : ℚ)
    (h : calculate_half_life m s = some hl) : 1 ≤ hl ∧ 1 ≤ hl.floor := by
  unfold calculate_half_life at h
  rcases Option.map_eq_some'.mp h with ⟨beta, _, hb⟩
  have h1 : 1 ≤ hl := hb ▸ le_max_left _ _
  exact ⟨h1, Rat.le_floor.mpr (by exact_mod_cast h1)⟩

/-- Witness for claim C5 at a concrete input: the spread [1, 2, 1, 2, 1] has
regression slope −2, so the raw half-life ln 2 / 2 is clamped to 1. -/
theorem half_life_at_least_one_witness :
    1 ≤ (1 : ℚ) ∧ 1 ≤ (1 : ℚ).floor :=
  half_life_at_least_one qModel [some 1, some 2, some 1, some 2, some 1] 1
    (by simp [calculate_half_life, shiftOne, diffS, polyfitSlope, meanQ, osub,
          qModel]
        norm_num)

/-- Claim C6: on equal-length NaN-free inputs of length at least 2 with
nonzero variance of X, the hedge ratio equals the sample covariance divided
by the sample variance, both with divisor n − 1 as the spec words it. -/
theorem hedge_ratio_eq_sample_cov_div_var (y x : List ℚ)
    (hlen : y.length = x.length) (hn : 2 ≤ y.length)
    (hv : specSampleCov x x ≠ 0) :
    hedgeRatioQ (y.map some) (x.map some) =
      some (specSampleCov y x / specSampleCov x x) := by
  unfold hedgeRatioQ
  rw [covEntry_map_some y x hlen, covEntry_map_some x x rfl,
    if_pos hn, if_pos (hlen ▸ hn), sCov_eq_spec, sCov_eq_spec]
  simp [odiv, hv]

/-- Witness for claim C6 at a concrete input: Y = [1, 2], X = [1, 3] has
sample covariance 1 and sample variance 2, so the hedge ratio is 1/2. -/
theorem hedge_ratio_eq_sample_cov_div_var_witness :
    hedgeRatioQ ([(1 : ℚ), 2].map some) ([(1 : ℚ), 3].map some) =
      some (specSampleCov [1, 2] [1, 3] / specSampleCov [1, 3] [1, 3]) :=
  hedge_ratio_eq_sample_cov_div_var [1, 2] [1, 3] rfl (by decide)
    (by norm_num [specSampleCov, meanQ])

/-- Claim C7: wherever the trailing-60 rolling standard deviation is defined,
the upper threshold is twice it and the lower threshold is its negation, so
the bands are symmetric about zero. -/
theorem adaptive_thresholds_symmetric (m : NumModel) (s : Series) (i : ℕ)
    (sd : ℚ) (h : (rollingStdS m s 60).getD i none = some sd) :
    (adaptive_thresholds m s 60).1.getD i none = some (2 * sd) ∧
    (adaptive_thresholds m s 60).2.getD i none = some (-(2 * sd)) := by
  constructor
  · rw [adaptive_fst, getD_map_opt _ rfl, h]
    exact congrArg some (by ring)
  · rw [adaptive_snd, getD_map_opt _ rfl, h]
    exact congrArg some (by ring)

/-- Witness for claim C7 at a concrete input: a constant spread of length 60
has rolling standard deviation 0 at position 59, and both thresholds are 0
there. -/
theorem adaptive_thresholds_symmetric_witness :
    (adaptive_thresholds qModel (List.replicate 60 (some 5)) 60).1.getD 59
        none = some (2 * 0) ∧
    (adaptive_thresholds qModel (List.replicate 60 (some 5)) 60).2.getD 59
        none = some (-(2 * 0)) :=
  adaptive_thresholds_symmetric qModel (List.replicate 60 (some 5)) 59 0
    (rollingStdS_replicate_full qModel 60 60 59 5 (by norm_num) (by norm_num)
      (by norm_num))

/-- Claim C8: for any z-score series and the adaptive thresholds of any
spread, the buy-signal and sell-signal index sets are disjoint: their
intersection is empty. -/
theorem buy_sell_signals_disjoint (m : NumModel) (zs s : Series) :
    (buySignals zs (adaptive_thresholds m s 60).2).inter
      (sellSignals zs (adaptive_thresholds m s 60).1) = [] := by
  have key : ∀ a, a ∈ buySignals zs (adaptive_thresholds m s 60).2 →
      a ∉ sellSignals zs (adaptive_thresholds m s 60).1 := by
    intro a hb hs
    unfold buySignals at hb
    unfold sellSignals at hs
    have hb2 := (List.mem_filter.mp hb).2
    have hs2 := (List.mem_filter.mp hs).2
    obtain ⟨z, l, hz, hl, hzl⟩ := oLT_eq_true _ _ hb2
    obtain ⟨z2, u, hz2, hu, huz⟩ := oGT_eq_true _ _ hs2
    rw [hz] at hz2
    have hzz := Option.some_inj.mp hz2
    rw [adaptive_snd, getD_map_opt _ rfl] at hl
    rw [adaptive_fst, getD_map_opt _ rfl] at hu
    rcases hrs : (rollingStdS m s 60).getD a none with _ | sd
    · rw [hrs] at hl
      exact absurd hl (by simp)
    · rw [hrs] at hl hu
      simp only [Option.map_some'] at hl hu
      have hle := Option.some_inj.mp hl
      have hue := Option.some_inj.mp hu
      have hnn : 0 ≤ sd := rollingStd_getD_some m s 60 a sd hrs
      rw [← hle] at hzl
      rw [← hue] at huz
      rw [hzz] at hzl
      linarith
  unfold List.inter
  refine List.filter_eq_nil_iff.mpr ?_
  intro a ha
  rw [List.elem_iff]
  exact key a ha

/-- Claim C9: the hedge ratio is invariant under adding a constant to every
element of Y. -/
theorem hedge_ratio_translation_invariant (y x : List ℚ) (c : ℚ)
    (hlen : y.length = x.length) :
    hedgeRatioQ ((y.map (fun v => v + c)).map some) (x.map some) =
      hedgeRatioQ (y.map some) (x.map some) := by
  unfold hedgeRatioQ
  rw [covEntry_map_some (y.map (fun v => v + c)) x (by simpa using hlen),
    covEntry_map_some y x hlen]
  simp only [List.length_map]
  by_cases h2 : 2 ≤ y.length
  · rw [if_pos h2, if_pos h2,
      sCov_map_add_left y x c (List.length_pos.mp (by omega))]
  · rw [if_neg h2, if_neg h2]

/-- Witness for claim C9 at a concrete input: shifting Y = [1, 2] by 7 leaves
the hedge ratio against X = [3, 5] unchanged. -/
theorem hedge_ratio_translation_invariant_witness :
    hedgeRatioQ (([(1 : ℚ), 2].map (fun v => v + 7)).map some)
        ([(3 : ℚ), 5].map some) =
      hedgeRatioQ ([(1 : ℚ), 2].map some) ([(3 : ℚ), 5].map some) :=
  hedge_ratio_translation_invariant [1, 2] [3, 5] 7 rfl

/-- Claim C10: the spread is the elementwise residual Y − h·X, and adding
h·X back reconstructs Y exactly. -/
theorem spread_roundtrip (y x : List ℚ) (r : ℚ) (i : ℕ)
    (hlen : y.length = x.length) (hi : i < y.length) :
    (calculate_spread (y.map some) (x.map some) (some r)).getD i none =
      some (y.getD i 0 - r * x.getD i 0) ∧
    oadd ((calculate_spread (y.map some) (x.map some) (some r)).getD i none)
      (omul (some r) ((x.map some).getD i none)) = some (y.getD i 0) := by
  have hx : (x.map some).getD i none = some (x.getD i 0) :=
    getD_map_some x i (by omega)
  have hy : (y.map some).getD i none = some (y.getD i 0) :=
    getD_map_some y i hi
  have hs : (calculate_spread (y.map some) (x.map some) (some r)).getD i
      none = some (y.getD i 0 - r * x.getD i 0) := by
    unfold calculate_spread
    rw [getD_zipWith _ rfl _ _ i (by simp [hlen]), hy, hx]
    rfl
  refine ⟨hs, ?_⟩
  rw [hs, hx]
  exact congrArg some (by ring)

/-- Witness for claim C10 at a concrete input: Y = [4, 9], X = [2, 3],
hedge ratio 2, position 0. -/
theorem spread_roundtrip_witness :
    (calculate_spread ([(4 : ℚ), 9].map some) ([(2 : ℚ), 3].map some)
        (some 2)).getD 0 none =
      some (([(4 : ℚ), 9]).getD 0 0 - 2 * ([(2 : ℚ), 3]).getD 0 0) ∧
    oadd ((calculate_spread ([(4 : ℚ), 9].map some) ([(2 : ℚ), 3].map some)
        (some 2)).getD 0 none)
      (omul (some 2) (([(2 : ℚ), 3].map some).getD 0 none)) =
      some (([(4 : ℚ), 9]).getD 0 0) :=
  spread_roundtrip [4, 9] [2, 3] 2 0 rfl (by decide)

end PairsTrading
